import Mathlib

/-!
Shallow embedding of `src/bdk/soc/uart.c` (hekate BDK UART driver) and proofs
about it.  Machine integers (`u32`, `u16`, `u8`) are modelled as `Nat` with
explicit 32-bit masking where the C code relies on truncation or bitwise
complement.  Hardware reads (LSR status, received bytes, the microsecond
timer) are modelled as oracle functions indexed by how many reads of that
kind the code has performed so far; unbounded C loops are given explicit
fuel and return `Option`, `none` meaning the fuel ran out.
-/

namespace Hekate.Uart

/-- Modelled from the spec: the header `soc/uart.h` is not under `src/`; only
`uart.c` is.  These are the register bit masks the spec describes (standard
16550 bit positions: RDR/THRE/TMTY are single LSR bits, RTS a single MCR bit,
STOP a single LCR bit, the FIFO clear bits single FCR bits). -/
def UART_LSR_RDR : Nat := 0x01

/-- Modelled from the spec: LSR transmit-holding-register-empty bit. -/
def UART_LSR_THRE : Nat := 0x20

/-- Modelled from the spec: LSR transmitter-idle bit. -/
def UART_LSR_TMTY : Nat := 0x40

/-- Modelled from the spec: MCR request-to-send bit (manual flow control). -/
def UART_MCR_RTS : Nat := 0x02

/-- Modelled from the spec: LCR 2-stop-bits flag. -/
def UART_LCR_STOP : Nat := 0x04

/-- Modelled from the spec: LCR 8-data-bits word length field value. -/
def UART_LCR_WORD_LENGTH_8 : Nat := 0x03

/-- Modelled from the spec: LCR divisor-latch-access bit. -/
def UART_LCR_DLAB : Nat := 0x80

/-- Modelled from the spec: FCR FIFO-enable bit. -/
def UART_IIR_FCR_EN_FIFO : Nat := 0x01

/-- Modelled from the spec: FCR receive-FIFO-clear bit. -/
def UART_IIR_FCR_RX_CLR : Nat := 0x02

/-- Modelled from the spec: FCR transmit-FIFO-clear bit. -/
def UART_IIR_FCR_TX_CLR : Nat := 0x04

/-- All-ones 32-bit mask; `cnot32 x` models the C expression `~x` on a `u32`. -/
def mask32 : Nat := 0xFFFFFFFF

/-- C bitwise complement `~x` at width 32 (for `x < 2^32`). -/
def cnot32 (x : Nat) : Nat := mask32 ^^^ x

/-- The static table `_uart_base_offsets[5] = { 0, 0x40, 0x200, 0x300, 0x400 }`
from `uart.c`. -/
def uart_base_offsets : List Nat := [0x0, 0x40, 0x200, 0x300, 0x400]

/-- Error values for the embedding.  `oobTableRead i` records that the C code
evaluated `_uart_base_offsets[i]` with `i` outside `[0,5)` — an out-of-bounds
array read (undefined behavior in C).  The C source performs the lookup with
no bounds check whatsoever, so this constructor models the unchecked access
going wrong, not a check present in the program. -/
inductive UartErr where
  | oobTableRead : Nat → UartErr
deriving DecidableEq, Repr

/-- The address computation `UART_BASE + _uart_base_offsets[idx]` performed at
the top of every operation in `uart.c`, modelled as the table lookup alone
(the fixed `UART_BASE` summand is irrelevant to the claims).  The C code
indexes the 5-entry array directly with the caller's `idx`. -/
def uart_base_offset (idx : Nat) : Except UartErr Nat :=
  match uart_base_offsets[idx]? with
  | some off => Except.ok off
  | none => Except.error (UartErr.oobTableRead idx)

/-- Whether the base-address computation succeeds (the lookup is in bounds). -/
def uart_base_ok (idx : Nat) : Bool :=
  match uart_base_offset idx with
  | Except.ok _ => true
  | Except.error _ => false

/-- The register block of one UART port (section 3 of the spec; the fields of
`uart_t` touched by `uart.c`).  All values are `u32`-sized naturals. -/
structure UartRegs where
  ier_dlab : Nat
  lcr : Nat
  thr_dlab : Nat
  iir_fcr : Nat
  lsr : Nat
  mcr : Nat
  irda_csr : Nat
  spr : Nat
deriving DecidableEq, Repr

/-- A sample register file used as a concrete input in witnesses. -/
def regs1 : UartRegs :=
  { ier_dlab := 0, lcr := 0, thr_dlab := 0, iir_fcr := 0
    lsr := 0, mcr := 0, irda_csr := 1, spr := 0 }

/-- `uart_init` line 41: the baud divisor.  `clk_div` is the boolean returned
by `clock_uart_use_src_div` (true when a divided clock source was selected);
the divided branch is the C expression
`(8 * baud + 408000000) / (16 * baud)` with truncating division. -/
def uart_divisor (clk_div : Bool) (baud : Nat) : Nat :=
  if clk_div then (8 * baud + 408000000) / (16 * baud) else 1

/-- Modelled from the spec: round-half-up of the rational `p / q`, written as
the integer formula `(2*p + q) / (2*q)` (add one half, then floor).  This is
the spec-side definition the divisor is compared against. -/
def roundHalfUp (p q : Nat) : Nat := (2 * p + q) / (2 * q)

/-- `uart_init` line 38: the stop-bit part of the line-control value,
`baud > 1000000 ? UART_LCR_STOP : 0`. -/
def uart_lcr_stop (baud : Nat) : Nat :=
  if 1000000 < baud then UART_LCR_STOP else 0

/-- `uart_init` line 48: the line-control value committed after the divisor
latch is closed, `uart_lcr_stop | UART_LCR_WORD_LENGTH_8`. -/
def uart_lcr_commit (baud : Nat) : Nat :=
  uart_lcr_stop baud ||| UART_LCR_WORD_LENGTH_8

/-- `uart_init` line 67: the settle delay requested after the baud change,
`3 * ((baud + 999999) / baud)` microseconds (argument of `usleep`). -/
def uart_settle_delay (baud : Nat) : Nat := 3 * ((baud + 999999) / baud)

/-- Modelled from the spec: `ceil(1,000,000 / B)` as the integer formula
`(1000000 + B - 1) / B`; the theorem for the settle delay also proves the
two inequalities characterising it as the ceiling. -/
def ceilDiv1M (B : Nat) : Nat := (1000000 + B - 1) / B

/-- `uart_invert`: sets (`enable = true`, C `|=`) or clears (`enable = false`,
C `&= ~mask` at width 32) the bits of `invert_mask` in `UART_IRDA_CSR`; the
trailing `(void)uart->UART_SPR` is a read and writes nothing. -/
def uart_invert (enable : Bool) (invert_mask : Nat) (r : UartRegs) : UartRegs :=
  if enable then { r with irda_csr := r.irda_csr ||| invert_mask }
  else { r with irda_csr := r.irda_csr &&& cnot32 invert_mask }

/-- `uart_set_mode`: resolves the port base address (the unchecked table
lookup), then overwrites `UART_MCR` with `mode`; the trailing SPR access is a
read. -/
def uart_set_mode (idx mode : Nat) (r : UartRegs) : Except UartErr UartRegs :=
  match uart_base_offset idx with
  | Except.error e => Except.error e
  | Except.ok _ => Except.ok { r with mcr := mode }

/-- Oracle for the hardware reads `uart_recv` performs.  `lsr k` is the value
of `UART_LSR` at the k-th LSR read of the call, `rx j` the byte delivered by
the j-th read of the receive register, `tmr c` the value of `get_tmr_us()` at
the c-th timer read (the read at `timeout = get_tmr_us() + 250` is `tmr 0`). -/
structure RecvEnv where
  lsr : Nat → Nat
  rx : Nat → Nat
  tmr : Nat → Nat

/-- How `uart_recv` exited its loop: `filled` is the `break` on
`len && len <= i`; `timedOut t` is the `goto out` taken when the timer read
`t` satisfied `timeout < t`. -/
inductive RecvExit where
  | filled : RecvExit
  | timedOut : Nat → RecvExit
deriving DecidableEq, Repr

/-- The observable outcome of one `uart_recv` call: the returned count `i`,
the bytes written to `buf` in order, how the loop exited, and the MCR value
during the loop (after the RTS clear) and at return (after the RTS set). -/
structure RecvResult where
  count : Nat
  bytes : List Nat
  why : RecvExit
  mcrDuring : Nat
  mcrFinal : Nat
deriving DecidableEq, Repr

/-- The `for (i = 0; ; i++)` loop of `uart_recv`, with the inner
`while (!(LSR & RDR))` poll merged in (the control flow is identical):
check the `break` condition, read LSR once; if RDR is set read the byte and
reset the rolling deadline from a fresh timer read; otherwise read the timer
and `goto out` when past the deadline.  `fuel` bounds the number of loop
steps; `none` means the fuel ran out before the C loop exited.  `i` is the
loop counter, `lk`/`rk`/`tk` count LSR/receive-register/timer reads done so
far, `acc` holds the bytes written to `buf` in reverse. -/
def uart_recv_loop (env : RecvEnv) (len : Nat) :
    Nat → Nat → Nat → Nat → Nat → Nat → List Nat →
      Option (Nat × List Nat × RecvExit)
  | 0, _, _, _, _, _, _ => none
  | fuel + 1, i, lk, rk, tk, timeout, acc =>
    if len ≠ 0 ∧ len ≤ i then some (i, acc.reverse, RecvExit.filled)
    else if env.lsr lk &&& UART_LSR_RDR ≠ 0 then
      uart_recv_loop env len fuel (i + 1) (lk + 1) (rk + 1) (tk + 1)
        (env.tmr tk + 250) (env.rx rk :: acc)
    else if timeout < env.tmr tk then
      some (i, acc.reverse, RecvExit.timedOut (env.tmr tk))
    else
      uart_recv_loop env len fuel i (lk + 1) rk (tk + 1) timeout acc

/-- The MCR value while the `uart_recv` loop runs: if `manual_mode`
(`MCR & UART_MCR_RTS` non-zero) the code clears RTS with `&= ~UART_MCR_RTS`
before the loop. -/
def recvMcrDuring (mcr0 : Nat) : Nat :=
  if mcr0 &&& UART_MCR_RTS != 0 then mcr0 &&& cnot32 UART_MCR_RTS else mcr0

/-- The MCR value when `uart_recv` returns: if `manual_mode` the code sets RTS
back with `|= UART_MCR_RTS` at the `out:` label, on every exit path. -/
def recvMcrFinal (mcr0 : Nat) : Nat :=
  if mcr0 &&& UART_MCR_RTS != 0 then recvMcrDuring mcr0 ||| UART_MCR_RTS
  else recvMcrDuring mcr0

/-- `uart_recv(idx, buf, len)`: samples `manual_mode` from the port's MCR
(`mcr0`), arms the first 250 µs deadline from timer read `tmr 0`, clears RTS
if in manual mode, runs the loop (first in-loop timer read is `tmr 1`), and
restores RTS on exit.  Both the `break` exit and the `goto out` exit flow
through the same epilogue, as in the C. -/
def uart_recv (env : RecvEnv) (mcr0 len fuel : Nat) : Option RecvResult :=
  match uart_recv_loop env len fuel 0 0 0 1 (env.tmr 0 + 250) [] with
  | none => none
  | some (i, bs, w) => some ⟨i, bs, w, recvMcrDuring mcr0, recvMcrFinal mcr0⟩

/-- Register model whose LSR always reports receiver-data-ready, delivering
the injected byte stream `data`. -/
def alwaysReady (data tmr : Nat → Nat) : RecvEnv :=
  ⟨fun _ => UART_LSR_RDR, data, tmr⟩

/-- Register model whose LSR never reports receiver-data-ready. -/
def neverReady (tmr : Nat → Nat) : RecvEnv :=
  ⟨fun _ => 0, fun _ => 0, tmr⟩

/-- Boolean check that a `uart_recv` outcome is a clean timeout: the call
returned (fuel did not run out), delivered zero bytes, and exited on a timer
read strictly past `deadline`. -/
def timedOutAfter (deadline : Nat) : RecvExit → Bool
  | RecvExit.timedOut t => deadline < t
  | RecvExit.filled => false

/-- Bundles the C3 success condition on an `Option RecvResult`. -/
def recvTimedOutOk (deadline : Nat) : Option RecvResult → Bool
  | some r => r.count == 0 && r.bytes == [] && timedOutAfter deadline r.why
  | none => false

/-- One bounded status-poll loop of `uart_empty_fifo`:
`while (tries < 10 && cond) { tries++; usleep(100); }`.  `cond k` is the
polled condition at the k-th LSR read of the call (continue while true);
`budget` is `10 - tries` at entry, so the guard `tries < 10` and the budget
run out together and the recursion is structural.  Returns the LSR read
counter and the final `tries`. -/
def fifo_poll (cond : Nat → Bool) : Nat → Nat → Nat → Nat × Nat
  | 0, lk, tries => (lk, tries)
  | budget + 1, lk, tries =>
    if tries < 10 ∧ cond lk = true then fifo_poll cond budget (lk + 1) (tries + 1)
    else (lk, tries)

/-- The observable outcome of `uart_empty_fifo`: final register file and the
number of poll iterations each direction performed. -/
structure FifoResult where
  regs : UartRegs
  txTries : Nat
  rxTries : Nat
deriving DecidableEq, Repr

/-- `uart_empty_fifo(idx, which)`: writes `MCR = 0`, writes
`FCR = EN_FIFO | which` (the interleaved SPR accesses are reads, the sleeps
consume no modelled state), then — for each requested direction — runs the
bounded poll: TX waits while transmitter-idle is clear, RX waits while
receiver-data-ready is set, each capped at 10 tries (`tries` is reset to 0
between the phases, the LSR read counter is not). -/
def uart_empty_fifo (lsr : Nat → Nat) (which : Nat) (r : UartRegs) : FifoResult :=
  let r1 := { r with mcr := 0, iir_fcr := UART_IIR_FCR_EN_FIFO ||| which }
  let tx :=
    if UART_IIR_FCR_TX_CLR &&& which ≠ 0 then
      fifo_poll (fun k => lsr k &&& UART_LSR_TMTY == 0) 10 0 0
    else (0, 0)
  let rx :=
    if UART_IIR_FCR_RX_CLR &&& which ≠ 0 then
      fifo_poll (fun k => lsr k &&& UART_LSR_RDR != 0) 10 tx.1 0
    else (tx.1, 0)
  ⟨r1, tx.2, rx.2⟩

/-! Helper lemmas shared by the claim theorems. -/

/-- Unreached fuel-out: the poll-loop tries counter grows by at most `budget`. -/
lemma fifo_poll_tries_le (cond : Nat → Bool) :
    ∀ budget lk tries, (fifo_poll cond budget lk tries).2 ≤ tries + budget := by
  intro budget
  induction budget with
  | zero =>
    intro lk tries
    rw [fifo_poll]
    omega
  | succ budget ih =>
    intro lk tries
    rw [fifo_poll]
    by_cases h : tries < 10 ∧ cond lk = true
    · rw [if_pos h]
      have := ih (lk + 1) (tries + 1)
      omega
    · rw [if_neg h]
      omega

/-- Bit `i` of the all-ones 32-bit mask. -/
lemma testBit_mask32 (i : Nat) : mask32.testBit i = decide (i < 32) := by
  rw [show mask32 = 2 ^ 32 - 1 from by decide, Nat.testBit_two_pow_sub_one]

/-- A `u32`-sized value has no bits at positions 32 and above. -/
lemma testBit_high_false {x i : Nat} (hx : x < 2 ^ 32) (hi : ¬i < 32) :
    x.testBit i = false :=
  Nat.testBit_lt_two_pow
    (lt_of_lt_of_le hx (Nat.pow_le_pow_right (by norm_num) (by omega)))

/-- After or-ing in a mask whose bit 1 is set, masking by it is non-zero. -/
lemma lor_and_self_ne_zero (x m : Nat) (hbit : m.testBit 1 = true) :
    (x ||| m) &&& m ≠ 0 := by
  intro h0
  have hb : ((x ||| m) &&& m).testBit 1 = true := by
    rw [Nat.testBit_land, Nat.testBit_lor, hbit]
    simp
  rw [h0] at hb
  simp [Nat.zero_testBit] at hb

/-- With data-ready always set, the loop reads exactly the next `n` bytes of
the stream and exits through the `break` once `i` reaches `len`. -/
lemma recv_loop_ready (data tmr : Nat → Nat) (len : Nat) (hlen : 0 < len) :
    ∀ n i lk rk tk timeout acc, i + n = len →
    uart_recv_loop (alwaysReady data tmr) len (n + 1) i lk rk tk timeout acc
      = some (len, acc.reverse ++ (List.range n).map (fun j => data (rk + j)),
          RecvExit.filled) := by
  intro n
  induction n with
  | zero =>
    intro i lk rk tk timeout acc hi
    rw [uart_recv_loop, if_pos ⟨by omega, by omega⟩]
    simp [hi.symm]
  | succ n ih =>
    intro i lk rk tk timeout acc hi
    rw [uart_recv_loop, if_neg (by omega : ¬(len ≠ 0 ∧ len ≤ i)),
      if_pos (by simp [alwaysReady, UART_LSR_RDR] :
        (alwaysReady data tmr).lsr lk &&& UART_LSR_RDR ≠ 0),
      ih (i + 1) (lk + 1) (rk + 1) (tk + 1) ((alwaysReady data tmr).tmr tk + 250)
        ((alwaysReady data tmr).rx rk :: acc) (by omega)]
    simp only [Option.some.injEq, Prod.mk.injEq, true_and, and_true]
    rw [List.reverse_cons, List.append_assoc, List.range_succ_eq_map, List.map_cons,
      List.map_map]
    simp only [alwaysReady, List.singleton_append, Nat.add_zero]
    congr 1
    congr 1
    apply List.map_congr_left
    intro a _
    simp only [Function.comp]
    congr 1
    omega

/-- For `len ≠ 0` the loop counter never passes `len`: any returned count is
at most `len`. -/
lemma recv_loop_count_le (env : RecvEnv) (len : Nat) (hlen : len ≠ 0) :
    ∀ fuel i lk rk tk timeout acc out, i ≤ len →
    uart_recv_loop env len fuel i lk rk tk timeout acc = some out →
    out.1 ≤ len := by
  intro fuel
  induction fuel with
  | zero =>
    intro i lk rk tk timeout acc out _ h
    rw [uart_recv_loop] at h
    exact absurd h (by simp)
  | succ fuel ih =>
    intro i lk rk tk timeout acc out hile h
    rw [uart_recv_loop] at h
    by_cases hbrk : len ≠ 0 ∧ len ≤ i
    · rw [if_pos hbrk] at h
      cases h
      exact hile
    · rw [if_neg hbrk] at h
      by_cases hrdy : env.lsr lk &&& UART_LSR_RDR ≠ 0
      · rw [if_pos hrdy] at h
        exact ih (i + 1) (lk + 1) (rk + 1) (tk + 1) (env.tmr tk + 250)
          (env.rx rk :: acc) out (by omega) h
      · rw [if_neg hrdy] at h
        by_cases hto : timeout < env.tmr tk
        · rw [if_pos hto] at h
          cases h
          exact hile
        · rw [if_neg hto] at h
          exact ih i (lk + 1) rk (tk + 1) timeout acc out hile h

/-- A strictly increasing timer gains at least one tick per read. -/
lemma strictMono_base_add (tmr : Nat → Nat) (hmono : StrictMono tmr) :
    ∀ k, tmr 0 + k ≤ tmr k := by
  intro k
  induction k with
  | zero => omega
  | succ k ih =>
    have h2 := hmono (Nat.lt_succ_self k)
    simp only [Nat.succ_eq_add_one] at h2
    omega

/-- With data-ready never set and a strictly increasing timer, the loop exits
through `goto out` within 251 timer polls, delivering nothing, and the timer
value observed at exit is past the 250 µs deadline armed at entry. -/
lemma recv_loop_never_ready (tmr : Nat → Nat) (hmono : StrictMono tmr) (len : Nat) :
    ∀ fuel i lk rk tk acc, 1 ≤ tk → tk ≤ 251 → 251 < fuel + tk →
    ¬(len ≠ 0 ∧ len ≤ i) →
    ∃ t, uart_recv_loop (neverReady tmr) len fuel i lk rk tk (tmr 0 + 250) acc
        = some (i, acc.reverse, RecvExit.timedOut t) ∧ tmr 0 + 250 < t := by
  intro fuel
  induction fuel with
  | zero =>
    intro i lk rk tk acc h1 h2 h3 hbrk
    omega
  | succ fuel ih =>
    intro i lk rk tk acc h1 h2 h3 hbrk
    rw [uart_recv_loop, if_neg hbrk,
      if_neg (by simp [neverReady] : ¬((neverReady tmr).lsr lk &&& UART_LSR_RDR ≠ 0))]
    by_cases hto : tmr 0 + 250 < (neverReady tmr).tmr tk
    · rw [if_pos hto]
      exact ⟨(neverReady tmr).tmr tk, rfl, hto⟩
    · rw [if_neg hto]
      have hle : tmr 0 + tk ≤ tmr tk := strictMono_base_add tmr hmono tk
      have htk : tk ≤ 250 := by
        simp only [neverReady] at hto
        omega
      exact ih i (lk + 1) rk (tk + 1) acc (by omega) (by omega) (by omega) hbrk

/-! Claim theorems. -/

/-- C1: for every baud rate `B > 0` with a divided clock source selected, the
divisor `(8*B + 408000000) / (16*B)` computed by `uart_init` equals round-half-up
of `408000000 / (16*B)`, and `16*B` times it is a closest multiple of `16*B`
to 408000000, ties (equal distance) resolved toward the larger quotient. -/
theorem uart_init_divisor_rounds_to_nearest (B : Nat) (hB : 0 < B) :
    uart_divisor true B = roundHalfUp 408000000 (16 * B) ∧
    ∀ n : Nat,
      Nat.dist (16 * B * uart_divisor true B) 408000000
        ≤ Nat.dist (16 * B * n) 408000000 ∧
      (Nat.dist (16 * B * n) 408000000
          = Nat.dist (16 * B * uart_divisor true B) 408000000 →
        n ≤ uart_divisor true B) := by
  have hud : uart_divisor true B = (8 * B + 408000000) / (16 * B) := by
    simp [uart_divisor]
  have heq : uart_divisor true B = roundHalfUp 408000000 (16 * B) := by
    have hnum : 2 * 408000000 + 16 * B = 2 * (8 * B + 408000000) := by ring
    rw [roundHalfUp, hnum, Nat.mul_div_mul_left _ _ (by norm_num : (0:Nat) < 2), hud]
  refine ⟨heq, fun n => ?_⟩
  rw [hud]
  have h16 : 0 < 16 * B := by omega
  have hdm := Nat.div_add_mod (8 * B + 408000000) (16 * B)
  have hrlt := Nat.mod_lt (8 * B + 408000000) h16
  set d := (8 * B + 408000000) / (16 * B) with hd
  set r := (8 * B + 408000000) % (16 * B) with hr
  rcases Nat.lt_trichotomy n d with h | h | h
  · have h2 : 16 * B * (n + 1) ≤ 16 * B * d := Nat.mul_le_mul_left (16 * B) h
    have h3 : 16 * B * (n + 1) = 16 * B * n + 16 * B := by ring
    simp only [Nat.dist]
    constructor
    · omega
    · omega
  · subst h
    exact ⟨le_refl _, fun _ => le_refl _⟩
  · have h2 : 16 * B * (d + 1) ≤ 16 * B * n := Nat.mul_le_mul_left (16 * B) h
    have h3 : 16 * B * (d + 1) = 16 * B * d + 16 * B := by ring
    simp only [Nat.dist]
    constructor
    · omega
    · intro htie
      omega

/-- C1 witness at `B = 115200`. -/
theorem uart_init_divisor_rounds_to_nearest_witness :
    0 < 115200 ∧ uart_divisor true 115200 = roundHalfUp 408000000 (16 * 115200) :=
  ⟨by decide, (uart_init_divisor_rounds_to_nearest 115200 (by decide)).1⟩

/-- C2: with `maxLen > 0` and a register model raising data-ready continuously,
`uart_recv` returns exactly `len` and the buffer holds the first `len` injected
bytes in order; against any register model, a returned count is at most `len`. -/
theorem uart_recv_always_ready_fills (data tmr : Nat → Nat) (mcr0 len : Nat)
    (hlen : 0 < len) :
    uart_recv (alwaysReady data tmr) mcr0 len (len + 1)
      = some ⟨len, (List.range len).map data, RecvExit.filled,
          recvMcrDuring mcr0, recvMcrFinal mcr0⟩ ∧
    ∀ env fuel r, uart_recv env mcr0 len fuel = some r → r.count ≤ len := by
  constructor
  · rw [uart_recv,
      recv_loop_ready data tmr len hlen len 0 0 0 1
        ((alwaysReady data tmr).tmr 0 + 250) [] (by omega)]
    simp
  · intro env fuel r h
    rw [uart_recv] at h
    cases e : uart_recv_loop env len fuel 0 0 0 1 (env.tmr 0 + 250) [] with
    | none =>
      rw [e] at h
      exact absurd h (by simp)
    | some out =>
      obtain ⟨i, bs, w⟩ := out
      rw [e] at h
      have hle := recv_loop_count_le env len (by omega) fuel 0 0 0 1
        (env.tmr 0 + 250) [] ⟨i, bs, w⟩ (by omega) e
      cases h
      exact hle

/-- C2 witness at `len = 2` with byte stream `id`. -/
theorem uart_recv_always_ready_fills_witness :
    0 < 2 ∧
    uart_recv (alwaysReady id id) 0 2 3
      = some ⟨2, [0, 1], RecvExit.filled, recvMcrDuring 0, recvMcrFinal 0⟩ :=
  ⟨by decide, (uart_recv_always_ready_fills id id 0 2 (by decide)).1⟩

/-- C3: with a register model never raising data-ready and a strictly
increasing microsecond counter, `uart_recv` terminates with count 0 and an
empty buffer, exiting on a timer value strictly past the 250 µs deadline; this
holds for every `len`, including `len = 0`, where only the timeout stops the
loop. -/
theorem uart_recv_never_ready_times_out (tmr : Nat → Nat) (hmono : StrictMono tmr)
    (mcr0 len : Nat) :
    recvTimedOutOk (tmr 0 + 250) (uart_recv (neverReady tmr) mcr0 len 252) = true := by
  obtain ⟨t, hl, ht⟩ := recv_loop_never_ready tmr hmono len 252 0 0 0 1 []
    (by omega) (by omega) (by omega) (by omega)
  rw [uart_recv]
  simp only [neverReady] at hl ⊢
  rw [hl]
  simp [recvTimedOutOk, timedOutAfter, ht]

/-- C3 witness with the identity timer and `len = 0`. -/
theorem uart_recv_never_ready_times_out_witness :
    StrictMono (id : Nat → Nat) ∧
    recvTimedOutOk 250 (uart_recv (neverReady id) 7 0 252) = true :=
  ⟨strictMono_id, uart_recv_never_ready_times_out id strictMono_id 7 0⟩

/-- C4: whenever `uart_recv` is entered with the RTS bit set in MCR and
returns, the MCR value in force during the receive loop has RTS clear and the
MCR value at return has RTS set again — for every register model and both exit
paths (filled and timed out), since both flow through the same epilogue. -/
theorem uart_recv_rts_request_release (env : RecvEnv) (mcr0 len fuel : Nat)
    (r : RecvResult) (hrts : mcr0 &&& UART_MCR_RTS ≠ 0)
    (h : uart_recv env mcr0 len fuel = some r) :
    r.mcrDuring &&& UART_MCR_RTS = 0 ∧ r.mcrFinal &&& UART_MCR_RTS ≠ 0 := by
  have hman : (mcr0 &&& UART_MCR_RTS != 0) = true := by
    simpa using hrts
  rw [uart_recv] at h
  cases e : uart_recv_loop env len fuel 0 0 0 1 (env.tmr 0 + 250) [] with
  | none =>
    rw [e] at h
    exact absurd h (by simp)
  | some out =>
    obtain ⟨i, bs, w⟩ := out
    rw [e] at h
    cases h
    constructor
    · show recvMcrDuring mcr0 &&& UART_MCR_RTS = 0
      rw [recvMcrDuring, if_pos hman, Nat.and_assoc,
        show cnot32 UART_MCR_RTS &&& UART_MCR_RTS = 0 from by decide, Nat.and_zero]
    · show recvMcrFinal mcr0 &&& UART_MCR_RTS ≠ 0
      rw [recvMcrFinal, if_pos hman]
      exact lor_and_self_ne_zero _ _ (by decide)

/-- C4 witness: a concrete filled-buffer run entered with `MCR = 2` (RTS set). -/
theorem uart_recv_rts_request_release_witness :
    (2 : Nat) &&& UART_MCR_RTS ≠ 0 ∧
    uart_recv (alwaysReady id id) 2 1 2
      = some ⟨1, [0], RecvExit.filled, 0, 2⟩ ∧
    ((0 : Nat) &&& UART_MCR_RTS = 0 ∧ (2 : Nat) &&& UART_MCR_RTS ≠ 0) :=
  ⟨by decide, by decide,
    uart_recv_rts_request_release (alwaysReady id id) 2 1 2
      ⟨1, [0], RecvExit.filled, 0, 2⟩ (by decide) (by decide)⟩

/-- C5 counterexample: with `IRDA_CSR = 1` and `M = 1`, enabling then
disabling inversion leaves the register at `0`, not at its pre-call value `1`
— the claim fails when the pre-call register already has bits of `M` set,
because the C pair is `|= M` then `&= ~M`, which forces the `M` bits clear. -/
theorem uart_invert_pair_not_restoring :
    (uart_invert false 1 (uart_invert true 1 regs1)).irda_csr ≠ regs1.irda_csr := by
  decide

/-- C5 amended: for 32-bit `M` and register value, `invert(enable := true, M)`
followed by `invert(enable := false, M)` restores the whole register file
provided the pre-call `IRDA_CSR` has every bit of `M` clear. -/
theorem uart_invert_pair_restores_of_disjoint (r : UartRegs) (M : Nat)
    (hcsr : r.irda_csr < 2 ^ 32) (hM : M < 2 ^ 32)
    (hdisj : r.irda_csr &&& M = 0) :
    uart_invert false M (uart_invert true M r) = r := by
  have hkey : (r.irda_csr ||| M) &&& cnot32 M = r.irda_csr := by
    apply Nat.eq_of_testBit_eq
    intro i
    have hdb : (r.irda_csr.testBit i && M.testBit i) = false := by
      rw [← Nat.testBit_land, hdisj, Nat.zero_testBit]
    rw [Nat.testBit_land, Nat.testBit_lor, cnot32, Nat.testBit_xor, testBit_mask32]
    by_cases hi : i < 32
    · simp only [hi]
      cases ha : r.irda_csr.testBit i <;> cases hb : M.testBit i <;> simp_all
    · have hxi := testBit_high_false hcsr hi
      have hMi := testBit_high_false hM hi
      simp [hi, hxi, hMi]
  show ({ r with irda_csr := (r.irda_csr ||| M) &&& cnot32 M } : UartRegs) = r
  rw [hkey]

/-- C5 amended witness: `regs1` (whose `IRDA_CSR` is 1) with `M = 4`. -/
theorem uart_invert_pair_restores_of_disjoint_witness :
    regs1.irda_csr < 2 ^ 32 ∧ (4 : Nat) < 2 ^ 32 ∧ regs1.irda_csr &&& 4 = 0 ∧
    uart_invert false 4 (uart_invert true 4 regs1) = regs1 :=
  ⟨by decide, by decide, by decide,
    uart_invert_pair_restores_of_disjoint regs1 4 (by decide) (by decide) (by decide)⟩

/-- C6: for every baud rate `B > 0`, the committed line-control value has the
2-stop-bit flag set exactly when `B > 1,000,000`; at `B = 1,000,000` the flag
is clear. -/
theorem uart_init_stop_bits_threshold (B : Nat) (hB : 0 < B) :
    ((uart_lcr_commit B &&& UART_LCR_STOP ≠ 0) ↔ 1000000 < B) ∧
    uart_lcr_commit 1000000 &&& UART_LCR_STOP = 0 := by
  constructor
  · by_cases h : 1000000 < B
    · simp only [uart_lcr_commit, uart_lcr_stop, if_pos h]
      exact iff_of_true (by decide) h
    · simp only [uart_lcr_commit, uart_lcr_stop, if_neg h]
      exact iff_of_false (by decide) h
  · decide

/-- C6 witness at `B = 2,000,000`. -/
theorem uart_init_stop_bits_threshold_witness :
    0 < 2000000 ∧
    (((uart_lcr_commit 2000000 &&& UART_LCR_STOP ≠ 0) ↔ 1000000 < 2000000) ∧
      uart_lcr_commit 1000000 &&& UART_LCR_STOP = 0) :=
  ⟨by decide, uart_init_stop_bits_threshold 2000000 (by decide)⟩

/-- C7: for every status-register behaviour, `uart_empty_fifo` performs at
most 10 polling attempts per requested direction; the function is total (it
always returns) and surfaces no error on exhaustion — its result type has no
error case. -/
theorem uart_empty_fifo_poll_bounded (lsr : Nat → Nat) (which : Nat)
    (r : UartRegs) :
    (uart_empty_fifo lsr which r).txTries ≤ 10 ∧
    (uart_empty_fifo lsr which r).rxTries ≤ 10 := by
  simp only [uart_empty_fifo]
  constructor
  · by_cases h : UART_IIR_FCR_TX_CLR &&& which ≠ 0
    · rw [if_pos h]
      have := fifo_poll_tries_le (fun k => lsr k &&& UART_LSR_TMTY == 0) 10 0 0
      omega
    · rw [if_neg h]
      omega
  · by_cases h : UART_IIR_FCR_RX_CLR &&& which ≠ 0
    · rw [if_pos h]
      have := fifo_poll_tries_le (fun k => lsr k &&& UART_LSR_RDR != 0) 10
        (if UART_IIR_FCR_TX_CLR &&& which ≠ 0 then
          fifo_poll (fun k => lsr k &&& UART_LSR_TMTY == 0) 10 0 0
         else (0, 0)).1 0
      omega
    · rw [if_neg h]
      omega

/-- C8: for every baud rate `B > 0`, the settle delay equals
`3 * ceil(1,000,000 / B)` µs; the two inequalities characterise `ceilDiv1M B`
as exactly the ceiling of `1,000,000 / B`. -/
theorem uart_init_settle_delay_ceil (B : Nat) (hB : 0 < B) :
    uart_settle_delay B = 3 * ceilDiv1M B ∧
    1000000 ≤ B * ceilDiv1M B ∧
    ∀ m : Nat, 1000000 ≤ B * m → ceilDiv1M B ≤ m := by
  have hnum : 1000000 + B - 1 = B + 999999 := by omega
  have hceil : ceilDiv1M B = (B + 999999) / B := by rw [ceilDiv1M, hnum]
  refine ⟨by rw [uart_settle_delay, hceil], ?_, ?_⟩
  · have hdm := Nat.div_add_mod (B + 999999) B
    have hrlt := Nat.mod_lt (B + 999999) hB
    rw [hceil]
    set c := (B + 999999) / B
    set r := (B + 999999) % B
    omega
  · intro m hm
    rw [hceil]
    by_contra hc
    push_neg at hc
    have h2 : B * (m + 1) ≤ B * ((B + 999999) / B) := Nat.mul_le_mul_left B hc
    have h3 : B * (m + 1) = B * m + B := by ring
    have hdm := Nat.div_add_mod (B + 999999) B
    have hrlt := Nat.mod_lt (B + 999999) hB
    set c := (B + 999999) / B
    set r := (B + 999999) % B
    omega

/-- C8 witness at `B = 115200`. -/
theorem uart_init_settle_delay_ceil_witness :
    0 < 115200 ∧ uart_settle_delay 115200 = 3 * ceilDiv1M 115200 ∧
    1000000 ≤ 115200 * ceilDiv1M 115200 :=
  ⟨by decide, (uart_init_settle_delay_ceil 115200 (by decide)).1,
    (uart_init_settle_delay_ceil 115200 (by decide)).2.1⟩

/-- C9 counterexample: at index 5 (the first out-of-range value) the operation
is not rejected before the table access — the lookup itself is performed with
index 5 and goes out of bounds, which is the out-of-bounds read recorded by
the error value.  The C source has no range check anywhere. -/
theorem uart_set_mode_oob_reaches_lookup :
    uart_set_mode 5 0 regs1 = Except.error (UartErr.oobTableRead 5) := rfl

/-- C9 amended: the driver performs no range check on the port index: for
`idx < 5` the table lookup succeeds and the operation proceeds, while for
`idx ≥ 5` the caller's index reaches the lookup unchecked and causes an
out-of-bounds table read (undefined behavior in the C); validity of the index
is caller discipline, not an interface-boundary rejection. -/
theorem uart_port_index_unchecked (idx mode : Nat) (r : UartRegs) :
    (uart_base_ok idx = true ↔ idx < 5) ∧
    (5 ≤ idx → uart_set_mode idx mode r = Except.error (UartErr.oobTableRead idx)) ∧
    (idx < 5 → uart_set_mode idx mode r = Except.ok { r with mcr := mode }) := by
  by_cases h : idx < 5
  · refine ⟨iff_of_true ?_ h, fun h5 => absurd h (by omega), fun _ => ?_⟩
    · interval_cases idx <;> decide
    · interval_cases idx <;> rfl
  · have h5 : 5 ≤ idx := by omega
    have hnone : uart_base_offsets[idx]? = none :=
      List.getElem?_eq_none (by simpa [uart_base_offsets] using h5)
    have hoff : uart_base_offset idx = Except.error (UartErr.oobTableRead idx) := by
      rw [uart_base_offset, hnone]
    refine ⟨iff_of_false ?_ h, fun _ => ?_, fun hlt => absurd hlt h⟩
    · rw [uart_base_ok, hoff]
      simp
    · rw [uart_set_mode, hoff]

/-- C9 amended witness at `idx = 7`. -/
theorem uart_port_index_unchecked_witness :
    5 ≤ 7 ∧ uart_set_mode 7 0 regs1 = Except.error (UartErr.oobTableRead 7) :=
  ⟨by decide, (uart_port_index_unchecked 7 0 regs1).2.1 (by decide)⟩

/-- C10: `uart_invert` changes only the bits of `IRDA_CSR` selected by the
mask — every bit outside the mask keeps its value — and writes no other
register of the port (the trailing SPR access in the C is a read). -/
theorem uart_invert_frame (r : UartRegs) (enable : Bool) (M : Nat)
    (hcsr : r.irda_csr < 2 ^ 32) :
    (∀ i, M.testBit i = false →
      (uart_invert enable M r).irda_csr.testBit i = r.irda_csr.testBit i) ∧
    (uart_invert enable M r).ier_dlab = r.ier_dlab ∧
    (uart_invert enable M r).lcr = r.lcr ∧
    (uart_invert enable M r).thr_dlab = r.thr_dlab ∧
    (uart_invert enable M r).iir_fcr = r.iir_fcr ∧
    (uart_invert enable M r).lsr = r.lsr ∧
    (uart_invert enable M r).mcr = r.mcr ∧
    (uart_invert enable M r).spr = r.spr := by
  cases enable with
  | false =>
    refine ⟨fun i hMi => ?_, rfl, rfl, rfl, rfl, rfl, rfl, rfl⟩
    show (r.irda_csr &&& cnot32 M).testBit i = r.irda_csr.testBit i
    rw [Nat.testBit_land, cnot32, Nat.testBit_xor, testBit_mask32, hMi]
    by_cases hi : i < 32
    · simp [hi]
    · have hxi := testBit_high_false hcsr hi
      simp [hi, hxi]
  | true =>
    refine ⟨fun i hMi => ?_, rfl, rfl, rfl, rfl, rfl, rfl, rfl⟩
    show (r.irda_csr ||| M).testBit i = r.irda_csr.testBit i
    rw [Nat.testBit_lor, hMi]
    simp

/-- C10 witness: bit 1 (outside the mask 4) of `regs1` is untouched. -/
theorem uart_invert_frame_witness :
    regs1.irda_csr < 2 ^ 32 ∧ Nat.testBit 4 1 = false ∧
    (uart_invert true 4 regs1).irda_csr.testBit 1 = regs1.irda_csr.testBit 1 :=
  ⟨by decide, by decide, (uart_invert_frame regs1 true 4 (by decide)).1 1 (by decide)⟩

end Hekate.Uart
